import Mathlib

/-!
Verification of the capture-calibration-and-template-matching pipeline of the
MLmacro repository, against its specification.

The development shallowly embeds the relevant code:

* `src/template_matcher.py` — class `TemplateMatcher` (template cache,
  `match_templates`, `_match_single_template`, `_apply_nms`,
  `save_template`, `delete_template`, `load_all_templates`, `load_template`);
* `src/modules/capture.py` — the calibration and player-tracking steps of
  `Capture._main`.

Images are abstracted to their dimensions together with, for matching, the
correlation map that `cv2.matchTemplate` would produce for a template against
the searched frame (the numeric correlation itself is computed by OpenCV, an
external collaborator, so it enters the model as data).  Confidence scores and
thresholds are rationals.  Python exceptions raised and caught inside the
embedded functions are modelled as the values the handlers turn them into;
fallible file-system operations are modelled with explicit fault flags.
-/

/-- A single template match result (class `TemplateMatch` of
`src/template_matcher.py`): top-left pixel position, size of the template,
correlation confidence, and the issuing template's name and type. -/
structure TemplateMatch where
  x : Nat
  y : Nat
  width : Nat
  height : Nat
  confidence : ℚ
  template_name : String
  template_type : String
deriving DecidableEq, Repr

/-- One entry of `TemplateMatcher.template_cache`.  `metaType` and
`metaThreshold` model the `'type'` and `'confidence_threshold'` keys of the
metadata dict (`none` models an absent key).  `tH`/`tW` are the template
image's dimensions, and `corr y x` is the value
`cv2.matchTemplate(screen_gray, template_gray, TM_CCOEFF_NORMED)[y, x]`
for the frame being searched — the correlation of placing the template with
its top-left corner at pixel `(x, y)`. -/
structure TemplateEntry where
  name : String
  metaType : Option String
  metaThreshold : Option ℚ
  tH : Nat
  tW : Nat
  corr : Nat → Nat → ℚ

/-- `metadata.get('type', 'unknown')` in `match_templates`. -/
def typeOfEntry (t : TemplateEntry) : String :=
  t.metaType.getD "unknown"

/-- `metadata.get('confidence_threshold', self.confidence_threshold)` in
`match_templates`. -/
def thresholdOfEntry (confidence_threshold : ℚ) (t : TemplateEntry) : ℚ :=
  t.metaThreshold.getD confidence_threshold

/-- The offsets produced by `np.where` over an `h × w` result grid followed by
`zip(*locations[::-1])`: row-major traversal, each offset reported as
`(x, y)`. -/
def offsetsRowMajor (h w : Nat) : List (Nat × Nat) :=
  (List.range h).flatMap (fun y => (List.range w).map (fun x => (x, y)))

/-- The collection loop of `_match_single_template`: every offset whose
correlation is `≥ threshold` becomes a `TemplateMatch` whose size is the
template's and whose confidence is the correlation value at that offset. -/
def collectMatches (t : TemplateEntry) (threshold : ℚ) :
    List (Nat × Nat) → List TemplateMatch
  | [] => []
  | p :: rest =>
    if threshold ≤ t.corr p.2 p.1 then
      { x := p.1, y := p.2, width := t.tW, height := t.tH
        confidence := t.corr p.2 p.1
        template_name := t.name, template_type := typeOfEntry t } ::
        collectMatches t threshold rest
    else collectMatches t threshold rest

/-- `TemplateMatcher._match_single_template`.  When the template exceeds the
frame in either dimension `cv2.matchTemplate` raises; the surrounding
`try/except` turns that into the empty match list, which is what the first
branch returns.  Otherwise the result grid has shape
`(fH - tH + 1, fW - tW + 1)` and every offset whose correlation is
`≥ threshold` becomes a match. -/
def match_single_template (fH fW : Nat) (t : TemplateEntry) (threshold : ℚ) :
    List TemplateMatch :=
  if fH < t.tH ∨ fW < t.tW then []
  else collectMatches t threshold (offsetsRowMajor (fH - t.tH + 1) (fW - t.tW + 1))

/-- Length of the overlap of the segments `[a, a+la)` and `[b, b+lb)`
(zero when they are disjoint). -/
def segOverlap (a la b lb : Nat) : Nat :=
  min (a + la) (b + lb) - max a b

/-- Area of the intersection of the bounding boxes of two matches. -/
def interArea (m k : TemplateMatch) : Nat :=
  segOverlap m.x m.width k.x k.width * segOverlap m.y m.height k.y k.height

/-- Area of the union of the bounding boxes of two matches. -/
def unionArea (m k : TemplateMatch) : Nat :=
  m.width * m.height + k.width * k.height - interArea m k

/-- Intersection-over-union of the bounding boxes of two matches, as computed
by `cv2.dnn.NMSBoxes` (`rectOverlap`); `0` when the union is empty. -/
def iou (m k : TemplateMatch) : ℚ :=
  if unionArea m k = 0 then 0 else (interArea m k : ℚ) / (unionArea m k : ℚ)

/-- The greedy suppression loop of `cv2.dnn.NMSBoxes` (`NMSFast_`): walk the
score-sorted candidates, keeping a candidate exactly when its overlap with
every previously kept candidate is `≤ nms_threshold`. -/
def nmsAux (nms_threshold : ℚ) (kept : List TemplateMatch) :
    List TemplateMatch → List TemplateMatch
  | [] => []
  | m :: rest =>
    if ∀ k ∈ kept, iou k m ≤ nms_threshold then
      m :: nmsAux nms_threshold (kept ++ [m]) rest
    else
      nmsAux nms_threshold kept rest

/-- The score filter of `cv2.dnn.NMSBoxes`: only candidates whose score is
strictly above `score_threshold` take part in suppression at all. -/
def scoreFilter (score_threshold : ℚ) : List TemplateMatch → List TemplateMatch
  | [] => []
  | m :: rest =>
    if score_threshold < m.confidence then m :: scoreFilter score_threshold rest
    else scoreFilter score_threshold rest

/-- Insert a match into a list that is sorted by confidence descending:
after every element of strictly greater confidence and before the first
element of equal or smaller confidence.  Since `sortByConfDesc` inserts each
element into the sorted rest of the list, an element ends up before every
equal-confidence element that followed it, preserving the original order of
ties (stability). -/
def insertDesc (m : TemplateMatch) : List TemplateMatch → List TemplateMatch
  | [] => [m]
  | k :: rest =>
    if m.confidence < k.confidence then k :: insertDesc m rest
    else m :: k :: rest

/-- Stable sort by confidence, highest first: `matches.sort(key=lambda m:
m.confidence, reverse=True)` in `match_templates`, and the internal
`std::stable_sort` score sort of `cv2.dnn.NMSBoxes`.  Equal-confidence
elements keep their original relative order, and a stable sort is
extensionally unique, so this insertion sort embeds both faithfully. -/
def sortByConfDesc : List TemplateMatch → List TemplateMatch
  | [] => []
  | m :: rest => insertDesc m (sortByConfDesc rest)

/-- `cv2.dnn.NMSBoxes(boxes, scores, score_threshold, nms_threshold)`: drop
every candidate whose score is not strictly above `score_threshold`, sort the
rest by score descending, then run the greedy suppression loop.  The call in
`_apply_nms` passes `self.confidence_threshold` as `score_threshold`. -/
def nms_boxes (score_threshold nms_threshold : ℚ) (l : List TemplateMatch) :
    List TemplateMatch :=
  nmsAux nms_threshold [] (sortByConfDesc (scoreFilter score_threshold l))

/-- The distinct `template_type` keys of a match list, in order of first
appearance — the iteration order of the `grouped_matches` dict built by
`_apply_nms`.  `keysWithout ty ks` removes `ty` from a key list. -/
def keysWithout (ty : String) : List String → List String
  | [] => []
  | k :: rest =>
    if k = ty then keysWithout ty rest else k :: keysWithout ty rest

/-- The `template_type` keys of a match list in first-appearance order. -/
def groupKeys : List TemplateMatch → List String
  | [] => []
  | m :: rest => m.template_type :: keysWithout m.template_type (groupKeys rest)

/-- The group of matches carrying a given `template_type` — one value of the
`grouped_matches` dict of `_apply_nms`, in the order the matches were
appended. -/
def groupOf (ty : String) : List TemplateMatch → List TemplateMatch
  | [] => []
  | m :: rest =>
    if m.template_type = ty then m :: groupOf ty rest else groupOf ty rest

/-- The per-group loop of `_apply_nms`: run `cv2.dnn.NMSBoxes` on each
category group and append the survivors group after group, in the dict's key
order. -/
def nmsGroups (confidence_threshold nms_threshold : ℚ)
    (ms : List TemplateMatch) : List String → List TemplateMatch
  | [] => []
  | ty :: keys =>
    nms_boxes confidence_threshold nms_threshold (groupOf ty ms) ++
      nmsGroups confidence_threshold nms_threshold ms keys

/-- `TemplateMatcher._apply_nms`: group the matches by `template_type` and run
`cv2.dnn.NMSBoxes` on each group, concatenating the per-group survivors in the
dict's key order. -/
def apply_nms (confidence_threshold nms_threshold : ℚ)
    (ms : List TemplateMatch) : List TemplateMatch :=
  nmsGroups confidence_threshold nms_threshold ms (groupKeys ms)

/-- `if template_types and template_type not in template_types: continue` in
`match_templates`: a `None` or empty filter list admits every type. -/
def allowedByFilter (template_types : Option (List String)) (ty : String) : Bool :=
  match template_types with
  | none => true
  | some l => l.isEmpty || l.contains ty

/-- The collection loop of `match_templates` over the template cache: each
entry passing the type filter is searched with its own resolved threshold. -/
def collectAll (fH fW : Nat) (confidence_threshold : ℚ)
    (template_types : Option (List String)) :
    List TemplateEntry → List TemplateMatch
  | [] => []
  | t :: rest =>
    (if allowedByFilter template_types (typeOfEntry t) then
      match_single_template fH fW t (thresholdOfEntry confidence_threshold t)
    else []) ++ collectAll fH fW confidence_threshold template_types rest

/-- `TemplateMatcher.match_templates`.  `screen_image` is `none` when the
frame is unset (`screen_image is None`), otherwise the frame's
`(height, width)`.  The collected matches are sorted by confidence descending
and passed through `_apply_nms`. -/
def match_templates (screen_image : Option (Nat × Nat))
    (cache : List TemplateEntry) (template_types : Option (List String))
    (confidence_threshold nms_threshold : ℚ) : List TemplateMatch :=
  match screen_image with
  | none => []
  | some fr =>
    apply_nms confidence_threshold nms_threshold
      (sortByConfDesc (collectAll fr.1 fr.2 confidence_threshold template_types cache))

/-! ### Calibration and tracking (`src/modules/capture.py`) -/

/-- `MINIMAP_TOP_BORDER` of `capture.py`: the distance between the top of the
minimap and the top of the screen. -/
def MINIMAP_TOP_BORDER : ℤ := 5

/-- `MINIMAP_BOTTOM_BORDER` of `capture.py`: the thickness of the other three
borders of the minimap. -/
def MINIMAP_BOTTOM_BORDER : ℤ := 9

/-- The minimap rectangle derived by the calibration code: `(tlx, tly)` is
`mm_tl` and `(brx, bry)` is `mm_br`. -/
structure MinimapRect where
  tlx : ℤ
  tly : ℤ
  brx : ℤ
  bry : ℤ
deriving DecidableEq, Repr

/-- The calibration step of `Capture._main` (lines 182–196).  The two
`utils.single_match` anchor searches (`src/common/utils.py` is not part of the
repository snapshot; per spec §4.1 a search returns a best position or "not
found") enter as the inputs `tl` and `br`: `tl` is the top-left corner of the
best top-left-anchor match, `br` the bottom-right corner of the best
bottom-right-anchor match, `none` when not found.  `ptW`/`ptH` are
`PT_WIDTH`/`PT_HEIGHT`, the player template's dimensions.  The result is
`some` of the published minimap rectangle exactly when the code sets
`self.calibrated = True`, and `none` when the code stays uncalibrated and
retries. -/
def calibrateStep (ptW ptH : ℤ) :
    Option (ℤ × ℤ) → Option (ℤ × ℤ) → Option MinimapRect
  | some tl, some br =>
    let tlx := tl.1 + MINIMAP_BOTTOM_BORDER
    let tly := tl.2 + MINIMAP_TOP_BORDER
    some { tlx := tlx, tly := tly
           brx := max (tlx + ptW) (br.1 - MINIMAP_BOTTOM_BORDER)
           bry := max (tly + ptH) (br.2 - MINIMAP_BOTTOM_BORDER) }
  | _, _ => none

/-- The value assigned to `self.minimap_ratio` at calibration time:
`(mm_br[0] - mm_tl[0]) / (mm_br[1] - mm_tl[1])`. -/
def aspectOf (r : MinimapRect) : ℚ :=
  ((r.brx - r.tlx : ℤ) : ℚ) / ((r.bry - r.tly : ℤ) : ℚ)

/-- The calibration rule as the specification words it (spec §4.2): transition
to CALIBRATED only when both anchors are found AND the rectangle derived as
top-left anchor plus border insets, bottom-right anchor minus border insets
has width `≥ ptW` and height `≥ ptH`; otherwise remain uncalibrated (a
degenerate rectangle is rejected, never clamped). -/
def calibrateStepSpec (ptW ptH : ℤ) :
    Option (ℤ × ℤ) → Option (ℤ × ℤ) → Option MinimapRect
  | some tl, some br =>
    let tlx := tl.1 + MINIMAP_BOTTOM_BORDER
    let tly := tl.2 + MINIMAP_TOP_BORDER
    let brx := br.1 - MINIMAP_BOTTOM_BORDER
    let bry := br.2 - MINIMAP_BOTTOM_BORDER
    if ptW ≤ brx - tlx ∧ ptH ≤ bry - tly then
      some { tlx := tlx, tly := tly, brx := brx, bry := bry }
    else none
  | _, _ => none

/-- The published tracking state: `config.player_pos` and the
`self.calibrated` flag. -/
structure TrackState where
  player_pos : ℚ × ℚ
  calibrated : Bool
deriving DecidableEq, Repr

/-- `utils.convert_to_relative` — modelled from the spec, as
`src/common/utils.py` is not part of the repository snapshot: per §4.5,
normalization divides the minimap-relative pixel position by the rectangle's
width and height. -/
def convert_to_relative (p : ℤ × ℤ) (w h : ℤ) : ℚ × ℚ :=
  (((p.1 : ℤ) : ℚ) / ((w : ℤ) : ℚ), ((p.2 : ℤ) : ℚ) / ((h : ℤ) : ℚ))

/-- One iteration of the inner calibrated loop of `Capture._main` (lines
198–227), after the frame has been captured and cropped: `playerMatches` is
the result of `utils.multi_match(minimap, PLAYER_TEMPLATE, threshold=0.8)`
(the player-marker positions inside the crop, best first; `utils` is not part
of the snapshot and its result enters as data), `w`/`h` the crop's
dimensions.  `config.player_pos` is reassigned only under `if player:`; no
statement of the loop body writes `self.calibrated`. -/
def trackStep (st : TrackState) (playerMatches : List (ℤ × ℤ)) (w h : ℤ) :
    TrackState :=
  { player_pos :=
      match playerMatches with
      | [] => st.player_pos
      | p :: _ => convert_to_relative p w h
    calibrated := st.calibrated }

/-! ### Template library persistence (`src/template_matcher.py`) -/

/-- The `'type'` and `'confidence_threshold'` keys of a template metadata
dict; `none` models an absent key.  (The remaining keys — name, creation
time, width, height — are not referenced by any claim.) -/
structure Metadata where
  mtype : Option String
  mthreshold : Option ℚ
deriving DecidableEq, Repr

/-- The default metadata built by `load_template` when the sidecar is
missing: `{'type': 'unknown', 'confidence_threshold': 0.7}`. -/
def defaultMetadata : Metadata :=
  { mtype := some "unknown", mthreshold := some (7/10) }

/-- An entry of `template_cache` as built by `load_template` /
`save_template`: the image (abstracted to an identifying token), its
metadata and its dimensions. -/
structure LibEntry where
  image : Nat
  meta : Metadata
  height : Nat
  width : Nat
deriving DecidableEq, Repr

/-- The sidecar situation of one stored template: no `.json` file, a `.json`
file whose parse raises, or a parsed metadata dict. -/
inductive MetaFile
  | absent
  | corrupt
  | good (md : Metadata)
deriving DecidableEq, Repr

/-- One `<name>.png` of the templates directory together with its sidecar:
`imgReadable` is false when `cv2.imread` yields `None` (corrupt/unreadable
image). -/
structure StoredTemplate where
  name : String
  imgReadable : Bool
  image : Nat
  height : Nat
  width : Nat
  metaFile : MetaFile
deriving DecidableEq, Repr

/-- `TemplateMatcher.load_template` on one stored file: `none` when the image
is unreadable (`imread` returned `None` → `return False`) or the sidecar
parse raises (caught → `return False`); otherwise the cache entry, with
`defaultMetadata` when the sidecar is absent. -/
def load_template (f : StoredTemplate) : Option LibEntry :=
  if f.imgReadable then
    match f.metaFile with
    | .corrupt => none
    | .absent =>
      some { image := f.image, meta := defaultMetadata
             height := f.height, width := f.width }
    | .good md =>
      some { image := f.image, meta := md, height := f.height, width := f.width }
  else none

/-- The loop body of `load_all_templates`: attempt `load_template` on one
file, inserting the resulting entry into the cache on success and skipping
the file (with a logged warning) on failure. -/
def loadFold (cache : List (String × LibEntry)) (f : StoredTemplate) :
    List (String × LibEntry) :=
  match load_template f with
  | none => cache
  | some e => (f.name, e) :: cache

/-- `TemplateMatcher.load_all_templates`: `template_cache.clear()` (the prior
cache `prev` is discarded), then one `load_template` attempt per `*.png` in
the directory, each failure caught and skipped. -/
def load_all_templates (prev : List (String × LibEntry))
    (store : List StoredTemplate) : List (String × LibEntry) :=
  (fun _ => store.foldl loadFold []) prev

/-- The backing store: the `.png` files and the `.json` sidecars of the
templates directory, as name-keyed association lists. -/
structure FileStore where
  images : List (String × Nat)
  metas : List (String × Metadata)
deriving DecidableEq, Repr

/-- Which failures the two writes performed by `save_template` hit.
`cv2.imwrite` can fail in two ways: by raising (e.g. an invalid argument),
or — for I/O failures such as an unwritable destination — by returning
`False` without raising.  `save_template` discards that boolean result.  A
raising write leaves the store unchanged. -/
structure SaveFaults where
  imwriteRaises : Bool
  imwriteReturnsFalse : Bool
  metaWriteRaises : Bool
deriving DecidableEq, Repr

/-- `TemplateMatcher.save_template`: write the image (`cv2.imwrite`, whose
boolean result the code ignores), write the metadata, then insert into
`template_cache` and return `True`; any raise is caught and turns into
`return False` with the cache untouched.  When `cv2.imwrite` merely returns
`False`, no image file is produced but execution continues unchanged. -/
def save_template (fs : FileStore) (cache : List (String × LibEntry))
    (image : Nat) (h w : Nat) (name ttype : String)
    (confidence_threshold : ℚ) (faults : SaveFaults) :
    Bool × FileStore × List (String × LibEntry) :=
  if faults.imwriteRaises then (false, fs, cache)
  else
    let fs1 : FileStore :=
      if faults.imwriteReturnsFalse then fs
      else { fs with images := (name, image) :: fs.images }
    if faults.metaWriteRaises then (false, fs1, cache)
    else
      let md : Metadata := { mtype := some ttype, mthreshold := some confidence_threshold }
      let fs2 : FileStore := { fs1 with metas := (name, md) :: fs1.metas }
      (true, fs2,
        (name, { image := image, meta := md, height := h, width := w }) :: cache)

/-- Remove every binding of a key from an association list (the effect of
`unlink` / `del` on the name-keyed store and cache). -/
def eraseKey {β : Type} (name : String) : List (String × β) → List (String × β)
  | [] => []
  | p :: rest =>
    if p.1 = name then eraseKey name rest else p :: eraseKey name rest

/-- Which of the two `unlink` calls performed by `delete_template` raises. -/
structure DeleteFaults where
  unlinkImgRaises : Bool
  unlinkMetaRaises : Bool
deriving DecidableEq, Repr

/-- `TemplateMatcher.delete_template`: unlink the image if it exists, unlink
the sidecar if it exists, drop the name from `template_cache` if present, and
return `True`; a raising unlink is caught and turns into `return False` with
the cache untouched. -/
def delete_template (fs : FileStore) (cache : List (String × LibEntry))
    (name : String) (faults : DeleteFaults) :
    Bool × FileStore × List (String × LibEntry) :=
  if (fs.images.lookup name).isSome then
    if faults.unlinkImgRaises then (false, fs, cache)
    else
      let fs1 : FileStore := { fs with images := eraseKey name fs.images }
      if (fs1.metas.lookup name).isSome then
        if faults.unlinkMetaRaises then (false, fs1, cache)
        else (true, { fs1 with metas := eraseKey name fs1.metas }, eraseKey name cache)
      else (true, fs1, eraseKey name cache)
  else
    if (fs.metas.lookup name).isSome then
      if faults.unlinkMetaRaises then (false, fs, cache)
      else (true, { fs with metas := eraseKey name fs.metas }, eraseKey name cache)
    else (true, fs, eraseKey name cache)

/-! ### C6, C8, C9, C1 -/

/-- C6: for every template larger than the searched frame in either
dimension, the single-template search returns an empty match list (the raise
inside `cv2.matchTemplate` is caught, no out-of-range access happens), and
`match_templates` returns an empty sequence (not an error) when the frame is
unset. -/
theorem oversized_template_and_unset_frame_empty
    (fH fW : Nat) (t : TemplateEntry) (threshold : ℚ)
    (hbig : t.tH > fH ∨ t.tW > fW)
    (cache : List TemplateEntry) (template_types : Option (List String))
    (confidence_threshold nms_threshold : ℚ) :
    match_single_template fH fW t threshold = [] ∧
    match_templates none cache template_types confidence_threshold nms_threshold = [] := by
  refine ⟨?_, rfl⟩
  unfold match_single_template
  rcases hbig with h | h
  · exact if_pos (Or.inl h)
  · exact if_pos (Or.inr h)

theorem oversized_template_and_unset_frame_empty_witness :
    ((5 : Nat) > 3 ∨ (1 : Nat) > 3) ∧
    (match_single_template 3 3 ⟨"a", none, none, 5, 1, fun _ _ => 1⟩ (1/2) = [] ∧
     match_templates none [] none (7/10) (3/10) = []) :=
  ⟨Or.inl (by decide),
    oversized_template_and_unset_frame_empty 3 3 ⟨"a", none, none, 5, 1, fun _ _ => 1⟩
      (1/2) (Or.inl (by decide)) [] none (7/10) (3/10)⟩

/-- C8: while calibrated, a cycle in which the player marker is not found in
the minimap crop leaves the published `config.player_pos` at its previous
value and does not change the calibration flag. -/
theorem player_not_found_retains_position
    (st : TrackState) (playerMatches : List (ℤ × ℤ)) (w h : ℤ)
    (_hcal : st.calibrated = true) (hnone : playerMatches = []) :
    (trackStep st playerMatches w h).player_pos = st.player_pos ∧
    (trackStep st playerMatches w h).calibrated = st.calibrated := by
  subst hnone
  exact ⟨rfl, rfl⟩

theorem player_not_found_retains_position_witness :
    (trackStep ⟨(1/2, 1/2), true⟩ [] 10 10).player_pos = ((1:ℚ)/2, (1:ℚ)/2) ∧
    (trackStep ⟨(1/2, 1/2), true⟩ [] 10 10).calibrated = true :=
  player_not_found_retains_position ⟨(1/2, 1/2), true⟩ [] 10 10 rfl rfl

/-- C9: whenever the calibration step derives a rectangle from found anchors,
the bottom-right corner is clamped so that the width is at least the player
template's width and the height at least its height; hence (for the real,
positive player-template dimensions) the published crop is non-empty and
non-inverted and the aspect-ratio division is by a positive number. -/
theorem calibrated_rect_clamped_nondegenerate
    (ptW ptH : ℤ) (hW : 0 < ptW) (hH : 0 < ptH)
    (tl br : Option (ℤ × ℤ)) (r : MinimapRect)
    (hr : calibrateStep ptW ptH tl br = some r) :
    ptW ≤ r.brx - r.tlx ∧ ptH ≤ r.bry - r.tly ∧
    r.tlx < r.brx ∧ r.tly < r.bry ∧ 0 < aspectOf r := by
  cases tl with
  | none => simp [calibrateStep] at hr
  | some tl =>
    cases br with
    | none => simp [calibrateStep] at hr
    | some br =>
      simp only [calibrateStep, Option.some.injEq] at hr
      subst hr
      unfold aspectOf
      dsimp only
      have hmx := le_max_left (tl.1 + MINIMAP_BOTTOM_BORDER + ptW)
        (br.1 - MINIMAP_BOTTOM_BORDER)
      have hmy := le_max_left (tl.2 + MINIMAP_TOP_BORDER + ptH)
        (br.2 - MINIMAP_BOTTOM_BORDER)
      refine ⟨by omega, by omega, by omega, by omega, ?_⟩
      apply div_pos
      · have : (0 : ℤ) < max (tl.1 + MINIMAP_BOTTOM_BORDER + ptW)
            (br.1 - MINIMAP_BOTTOM_BORDER) - (tl.1 + MINIMAP_BOTTOM_BORDER) := by omega
        exact_mod_cast this
      · have : (0 : ℤ) < max (tl.2 + MINIMAP_TOP_BORDER + ptH)
            (br.2 - MINIMAP_BOTTOM_BORDER) - (tl.2 + MINIMAP_TOP_BORDER) := by omega
        exact_mod_cast this

theorem calibrated_rect_clamped_nondegenerate_witness :
    (0 : ℤ) < 16 ∧ (0 : ℤ) < 16 ∧
    (16 ≤ (125 : ℤ) - 109 ∧ 16 ≤ (121 : ℤ) - 105 ∧
     (109 : ℤ) < 125 ∧ (105 : ℤ) < 121 ∧
     0 < aspectOf ⟨109, 105, 125, 121⟩) :=
  ⟨by decide, by decide,
    calibrated_rect_clamped_nondegenerate 16 16 (by decide) (by decide)
      (some (100, 100)) (some (0, 0)) ⟨109, 105, 125, 121⟩ (by decide)⟩

/-- C1 counterexample: with the top-left anchor at `(100, 100)` and the
bottom-right anchor at `(0, 0)` (an inverted configuration) the rule the
specification states rejects the rectangle and stays uncalibrated, but the
code silently clamps the rectangle and sets `calibrated = True`. -/
theorem calibrator_accepts_inverted_rect :
    calibrateStepSpec 16 16 (some (100, 100)) (some (0, 0)) = none ∧
    calibrateStep 16 16 (some (100, 100)) (some (0, 0)) =
      some ⟨109, 105, 125, 121⟩ := by
  constructor <;> decide

/-- C1 (amended): the calibrator transitions to CALIBRATED exactly when both
anchor templates are found; a degenerate or inverted derived rectangle is not
rejected but silently clamped, so that the published rectangle always has
width `≥ ptW` and height `≥ ptH`. -/
theorem calibrated_iff_anchors_found
    (ptW ptH : ℤ) (tl br : Option (ℤ × ℤ)) :
    ((calibrateStep ptW ptH tl br).isSome ↔ (tl.isSome ∧ br.isSome)) ∧
    (∀ r : MinimapRect, calibrateStep ptW ptH tl br = some r →
      ptW ≤ r.brx - r.tlx ∧ ptH ≤ r.bry - r.tly) := by
  constructor
  · cases tl <;> cases br <;> simp [calibrateStep]
  · intro r hr
    cases tl with
    | none => simp [calibrateStep] at hr
    | some tl =>
      cases br with
      | none => simp [calibrateStep] at hr
      | some br =>
        simp only [calibrateStep, Option.some.injEq] at hr
        subst hr
        dsimp only
        have hmx := le_max_left (tl.1 + MINIMAP_BOTTOM_BORDER + ptW)
          (br.1 - MINIMAP_BOTTOM_BORDER)
        have hmy := le_max_left (tl.2 + MINIMAP_TOP_BORDER + ptH)
          (br.2 - MINIMAP_BOTTOM_BORDER)
        exact ⟨by omega, by omega⟩

theorem calibrated_iff_anchors_found_witness :
    (((calibrateStep 16 16 (some (100, 100)) (some (0, 0))).isSome ↔
      ((some ((100 : ℤ), (100 : ℤ))).isSome ∧ (some ((0 : ℤ), (0 : ℤ))).isSome)) ∧
     (16 ≤ (125 : ℤ) - 109 ∧ 16 ≤ (121 : ℤ) - 105)) :=
  ⟨(calibrated_iff_anchors_found 16 16 (some (100, 100)) (some (0, 0))).1,
    (calibrated_iff_anchors_found 16 16 (some (100, 100)) (some (0, 0))).2
      ⟨109, 105, 125, 121⟩ (by decide)⟩

/-! ### C4, C5, C10 -/

theorem eraseKey_of_lookup_none {β : Type} (name : String)
    (l : List (String × β)) (h : l.lookup name = none) :
    eraseKey name l = l := by
  induction l with
  | nil => rfl
  | cons p rest ih =>
    obtain ⟨k, b⟩ := p
    by_cases hp : k = name
    · exfalso
      subst hp
      simp [List.lookup] at h
    · have hq : (name == k) = false := by
        simp [beq_eq_false_iff_ne]
        exact fun hEq => hp hEq.symm
      simp only [List.lookup, hq] at h
      unfold eraseKey
      rw [if_neg hp, ih h]

theorem foldl_load_lookup_miss (store : List StoredTemplate)
    (acc : List (String × LibEntry)) (n : String)
    (h : ∀ f ∈ store, f.name ≠ n) :
    (store.foldl loadFold acc).lookup n = acc.lookup n := by
  induction store generalizing acc with
  | nil => rfl
  | cons g rest ih =>
    simp only [List.foldl_cons]
    rw [ih _ (fun f hf => h f (List.mem_cons_of_mem _ hf))]
    unfold loadFold
    cases hload : load_template g with
    | none => rfl
    | some e =>
      have hg : g.name ≠ n := h g (List.mem_cons_self _ _)
      have hq : (n == g.name) = false := by
        simp [beq_eq_false_iff_ne]
        exact fun hEq => hg hEq.symm
      simp only [List.lookup, hq]

theorem foldl_load_lookup_hit_some (store : List StoredTemplate)
    (acc : List (String × LibEntry)) (f : StoredTemplate) (e : LibEntry)
    (hnodup : (store.map StoredTemplate.name).Nodup) (hf : f ∈ store)
    (hload : load_template f = some e) :
    (store.foldl loadFold acc).lookup f.name = some e := by
  induction store generalizing acc with
  | nil => cases hf
  | cons g rest ih =>
    simp only [List.map_cons, List.nodup_cons] at hnodup
    simp only [List.foldl_cons]
    rcases List.mem_cons.mp hf with rfl | hf2
    · have hrest : ∀ x ∈ rest, x.name ≠ f.name := by
        intro x hx hEq
        exact hnodup.1 (hEq ▸ List.mem_map_of_mem _ hx)
      rw [foldl_load_lookup_miss rest _ _ hrest]
      unfold loadFold
      rw [hload]
      simp [List.lookup]
    · exact ih _ hnodup.2 hf2

theorem foldl_load_lookup_hit_none (store : List StoredTemplate)
    (acc : List (String × LibEntry)) (f : StoredTemplate)
    (hnodup : (store.map StoredTemplate.name).Nodup) (hf : f ∈ store)
    (hload : load_template f = none) :
    (store.foldl loadFold acc).lookup f.name = acc.lookup f.name := by
  induction store generalizing acc with
  | nil => cases hf
  | cons g rest ih =>
    simp only [List.map_cons, List.nodup_cons] at hnodup
    simp only [List.foldl_cons]
    rcases List.mem_cons.mp hf with rfl | hf2
    · have hrest : ∀ x ∈ rest, x.name ≠ f.name := by
        intro x hx hEq
        exact hnodup.1 (hEq ▸ List.mem_map_of_mem _ hx)
      rw [foldl_load_lookup_miss rest _ _ hrest]
      unfold loadFold
      rw [hload]
    · rw [ih _ hnodup.2 hf2]
      unfold loadFold
      cases hg : load_template g with
      | none => rfl
      | some e =>
        have hne : f.name ≠ g.name := by
          intro hEq
          exact hnodup.1 (hEq ▸ List.mem_map_of_mem _ hf2)
        have hq : (f.name == g.name) = false := by
          simp [beq_eq_false_iff_ne]
          exact hne
        simp only [List.lookup, hq]

/-- C5: `load_all_templates` first clears the cache (its result does not
depend on the prior cache), then loads every template from the store: the
final cache binds each stored name to exactly what `load_template` produces
for that file — an entry with default metadata (type `"unknown"`, threshold
`0.7`) when the sidecar is missing, no entry (the file is skipped, the rest
still loads) when the image is unreadable or the sidecar corrupt. -/
theorem load_all_templates_spec (prev : List (String × LibEntry))
    (store : List StoredTemplate)
    (hnodup : (store.map StoredTemplate.name).Nodup) :
    (∀ prev2, load_all_templates prev store = load_all_templates prev2 store) ∧
    (∀ f ∈ store, (load_all_templates prev store).lookup f.name = load_template f) ∧
    (∀ n : String, (∀ f ∈ store, f.name ≠ n) →
      (load_all_templates prev store).lookup n = none) ∧
    (∀ f : StoredTemplate, f.imgReadable = true → f.metaFile = .absent →
      load_template f =
        some ⟨f.image, ⟨some "unknown", some (7/10)⟩, f.height, f.width⟩) ∧
    (∀ f : StoredTemplate, f.imgReadable = false ∨ f.metaFile = .corrupt →
      load_template f = none) := by
  refine ⟨fun _ => rfl, ?_, ?_, ?_, ?_⟩
  · intro f hf
    cases hload : load_template f with
    | none => exact (foldl_load_lookup_hit_none store [] f hnodup hf hload)
    | some e => exact (foldl_load_lookup_hit_some store [] f e hnodup hf hload)
  · intro n hn
    exact foldl_load_lookup_miss store [] n hn
  · intro f h1 h2
    unfold load_template
    rw [h1, h2]
    rfl
  · intro f h
    rcases h with h | h
    · unfold load_template
      rw [h]
      rfl
    · unfold load_template
      rw [h]
      cases hi : f.imgReadable <;> rfl

theorem load_all_templates_spec_witness :
    (([⟨"slime", true, 7, 4, 4, .absent⟩] : List StoredTemplate).map
      StoredTemplate.name).Nodup ∧
    (load_all_templates [] [⟨"slime", true, 7, 4, 4, .absent⟩]).lookup "slime" =
      load_template ⟨"slime", true, 7, 4, 4, .absent⟩ ∧
    load_template (⟨"slime", true, 7, 4, 4, .absent⟩ : StoredTemplate) =
      some ⟨7, ⟨some "unknown", some (7/10)⟩, 4, 4⟩ :=
  ⟨by decide,
    (load_all_templates_spec [] [⟨"slime", true, 7, 4, 4, .absent⟩] (by decide)).2.1
      ⟨"slime", true, 7, 4, 4, .absent⟩ (List.mem_cons_self _ _),
    (load_all_templates_spec [] [⟨"slime", true, 7, 4, 4, .absent⟩] (by decide)).2.2.2.1
      ⟨"slime", true, 7, 4, 4, .absent⟩ rfl rfl⟩

/-- C4: the code, at the failing input.  When `cv2.imwrite` fails by
returning `False` (an I/O failure, no raise) and the metadata write succeeds,
`save_template` ignores the failed write: it writes the metadata sidecar,
inserts the new entry into `template_cache` and returns `True`, although no
image file exists in the store — exactly the cache/disk divergence
("missing expected file") the claim rules out. -/
theorem save_template_silent_imwrite_failure :
    save_template ⟨[], []⟩ [] 7 4 4 "slime" "monster" (3/4) ⟨false, true, false⟩ =
      (true, ⟨[], [("slime", ⟨some "monster", some (3/4)⟩)]⟩,
        [("slime", ⟨7, ⟨some "monster", some (3/4)⟩, 4, 4⟩)]) ∧
    (save_template ⟨[], []⟩ [] 7 4 4 "slime" "monster" (3/4)
        ⟨false, true, false⟩).2.1.images.lookup "slime" = none ∧
    (save_template ⟨[], []⟩ [] 7 4 4 "slime" "monster" (3/4)
        ⟨false, true, false⟩).2.2.lookup "slime" =
      some ⟨7, ⟨some "monster", some (3/4)⟩, 4, 4⟩ := by
  refine ⟨rfl, rfl, rfl⟩

/-- C10: deleting a name with no image file, no metadata file and no cache
entry returns `True` and leaves store and cache unchanged; `delete_template`
returns `False` only when one of the two unlink operations raises. -/
theorem delete_template_missing_name
    (fs : FileStore) (cache : List (String × LibEntry)) (name : String)
    (faults : DeleteFaults)
    (himg : fs.images.lookup name = none) (hmeta : fs.metas.lookup name = none)
    (hcache : cache.lookup name = none) :
    delete_template fs cache name faults = (true, fs, cache) ∧
    (∀ fs2 : FileStore, ∀ cache2 : List (String × LibEntry), ∀ name2 : String,
      ∀ faults2 : DeleteFaults,
      (delete_template fs2 cache2 name2 faults2).1 = false →
      faults2.unlinkImgRaises = true ∨ faults2.unlinkMetaRaises = true) := by
  constructor
  · unfold delete_template
    rw [himg, hmeta]
    simp only [Option.isSome_none, Bool.false_eq_true, if_false]
    rw [eraseKey_of_lookup_none name cache hcache]
  · intro fs2 cache2 name2 faults2 hfalse
    by_contra hboth
    push_neg at hboth
    obtain ⟨h1, h2⟩ := hboth
    simp only [ne_eq, Bool.not_eq_true] at h1 h2
    have hpos : ∀ (fsx : FileStore) (cachex : List (String × LibEntry))
        (namex : String),
        (delete_template fsx cachex namex ⟨false, false⟩).1 = true := by
      intro fsx cachex namex
      simp only [delete_template]
      split_ifs <;> simp_all
    obtain ⟨iw, mw⟩ := faults2
    simp only at h1 h2
    subst h1
    subst h2
    rw [hpos fs2 cache2 name2] at hfalse
    exact Bool.noConfusion hfalse

theorem delete_template_missing_name_witness :
    delete_template ⟨[], []⟩ [] "ghost" ⟨false, true⟩ =
      (true, (⟨[], []⟩ : FileStore), ([] : List (String × LibEntry))) :=
  (delete_template_missing_name ⟨[], []⟩ [] "ghost" ⟨false, true⟩ rfl rfl rfl).1

/-! ### Structural lemmas about the matcher pipeline -/

theorem segOverlap_comm (a la b lb : Nat) :
    segOverlap a la b lb = segOverlap b lb a la := by
  unfold segOverlap
  rw [Nat.min_comm, Nat.max_comm]

theorem interArea_comm (m k : TemplateMatch) : interArea m k = interArea k m := by
  unfold interArea
  rw [segOverlap_comm m.x m.width k.x k.width,
    segOverlap_comm m.y m.height k.y k.height]

theorem unionArea_comm (m k : TemplateMatch) : unionArea m k = unionArea k m := by
  unfold unionArea
  rw [interArea_comm, Nat.add_comm]

theorem iou_comm (m k : TemplateMatch) : iou m k = iou k m := by
  unfold iou
  rw [interArea_comm, unionArea_comm]

theorem nmsAux_sublist (thr : ℚ) (l : List TemplateMatch) :
    ∀ kept, (nmsAux thr kept l).Sublist l := by
  induction l with
  | nil =>
    intro kept
    simp [nmsAux]
  | cons a rest ih =>
    intro kept
    unfold nmsAux
    by_cases hc : ∀ k ∈ kept, iou k a ≤ thr
    · rw [if_pos hc]
      exact (ih (kept ++ [a])).cons₂ a
    · rw [if_neg hc]
      exact (ih kept).cons a

theorem nmsAux_kept_le (thr : ℚ) (l : List TemplateMatch) :
    ∀ kept m, m ∈ nmsAux thr kept l → ∀ k ∈ kept, iou k m ≤ thr := by
  induction l with
  | nil =>
    intro kept m hm
    simp [nmsAux] at hm
  | cons a rest ih =>
    intro kept m hm k hk
    unfold nmsAux at hm
    by_cases hc : ∀ x ∈ kept, iou x a ≤ thr
    · rw [if_pos hc] at hm
      rcases List.mem_cons.mp hm with rfl | hm2
      · exact hc k hk
      · exact ih (kept ++ [a]) m hm2 k (List.mem_append_left _ hk)
    · rw [if_neg hc] at hm
      exact ih kept m hm k hk

theorem nmsAux_pairwise (thr : ℚ) (l : List TemplateMatch) :
    ∀ kept, (nmsAux thr kept l).Pairwise (fun a b => iou a b ≤ thr) := by
  induction l with
  | nil =>
    intro kept
    simp [nmsAux]
  | cons a rest ih =>
    intro kept
    unfold nmsAux
    by_cases hc : ∀ k ∈ kept, iou k a ≤ thr
    · rw [if_pos hc]
      refine List.Pairwise.cons ?_ (ih (kept ++ [a]))
      intro b hb
      exact nmsAux_kept_le thr rest (kept ++ [a]) b hb a
        (List.mem_append_right _ (List.mem_cons_self _ _))
    · rw [if_neg hc]
      exact ih kept

theorem nmsAux_mem_or_suppressed (thr : ℚ) (l : List TemplateMatch) :
    ∀ kept m, m ∈ l →
      m ∈ nmsAux thr kept l ∨
        ∃ k, (k ∈ kept ∨ k ∈ nmsAux thr kept l) ∧ thr < iou k m := by
  induction l with
  | nil =>
    intro kept m hm
    cases hm
  | cons a rest ih =>
    intro kept m hm
    unfold nmsAux
    by_cases hc : ∀ k ∈ kept, iou k a ≤ thr
    · rw [if_pos hc]
      rcases List.mem_cons.mp hm with rfl | hm2
      · exact Or.inl (List.mem_cons_self _ _)
      · rcases ih (kept ++ [a]) m hm2 with hin | ⟨k, hk, hku⟩
        · exact Or.inl (List.mem_cons_of_mem _ hin)
        · rcases hk with hk | hk
          · rcases List.mem_append.mp hk with hk2 | hk2
            · exact Or.inr ⟨k, Or.inl hk2, hku⟩
            · have hka : k = a := List.mem_singleton.mp hk2
              subst hka
              exact Or.inr ⟨k, Or.inr (List.mem_cons_self _ _), hku⟩
          · exact Or.inr ⟨k, Or.inr (List.mem_cons_of_mem _ hk), hku⟩
    · rw [if_neg hc]
      push_neg at hc
      obtain ⟨k0, hk0, hk0u⟩ := hc
      rcases List.mem_cons.mp hm with rfl | hm2
      · exact Or.inr ⟨k0, Or.inl hk0, hk0u⟩
      · rcases ih kept m hm2 with hin | ⟨k, hk, hku⟩
        · exact Or.inl hin
        · exact Or.inr ⟨k, hk, hku⟩

theorem mem_scoreFilter (thr : ℚ) (l : List TemplateMatch) (m : TemplateMatch) :
    m ∈ scoreFilter thr l ↔ m ∈ l ∧ thr < m.confidence := by
  induction l with
  | nil => simp [scoreFilter]
  | cons a rest ih =>
    unfold scoreFilter
    by_cases hc : thr < a.confidence
    · rw [if_pos hc]
      constructor
      · intro h
        rcases List.mem_cons.mp h with rfl | h2
        · exact ⟨List.mem_cons_self _ _, hc⟩
        · obtain ⟨h3, h4⟩ := ih.mp h2
          exact ⟨List.mem_cons_of_mem _ h3, h4⟩
      · rintro ⟨h1, h2⟩
        rcases List.mem_cons.mp h1 with rfl | h3
        · exact List.mem_cons_self _ _
        · exact List.mem_cons_of_mem _ (ih.mpr ⟨h3, h2⟩)
    · rw [if_neg hc]
      constructor
      · intro h
        obtain ⟨h3, h4⟩ := ih.mp h
        exact ⟨List.mem_cons_of_mem _ h3, h4⟩
      · rintro ⟨h1, h2⟩
        rcases List.mem_cons.mp h1 with rfl | h3
        · exact absurd h2 hc
        · exact ih.mpr ⟨h3, h2⟩

theorem insertDesc_perm (m : TemplateMatch) (l : List TemplateMatch) :
    (insertDesc m l).Perm (m :: l) := by
  induction l with
  | nil => exact List.Perm.refl _
  | cons k rest ih =>
    unfold insertDesc
    by_cases hc : m.confidence < k.confidence
    · rw [if_pos hc]
      exact (ih.cons k).trans (List.Perm.swap m k rest)
    · rw [if_neg hc]

theorem sortByConfDesc_perm (l : List TemplateMatch) :
    (sortByConfDesc l).Perm l := by
  induction l with
  | nil => exact List.Perm.refl _
  | cons m rest ih =>
    unfold sortByConfDesc
    exact (insertDesc_perm m (sortByConfDesc rest)).trans (ih.cons m)

theorem mem_sortByConfDesc (l : List TemplateMatch) (m : TemplateMatch) :
    m ∈ sortByConfDesc l ↔ m ∈ l :=
  (sortByConfDesc_perm l).mem_iff

theorem insertDesc_sorted (m : TemplateMatch) (l : List TemplateMatch)
    (h : l.Pairwise (fun a b => b.confidence ≤ a.confidence)) :
    (insertDesc m l).Pairwise (fun a b => b.confidence ≤ a.confidence) := by
  induction l with
  | nil => simp [insertDesc]
  | cons k rest ih =>
    obtain ⟨hk, hrest⟩ := List.pairwise_cons.mp h
    unfold insertDesc
    by_cases hc : m.confidence < k.confidence
    · rw [if_pos hc]
      refine List.Pairwise.cons ?_ (ih hrest)
      intro b hb
      rcases (insertDesc_perm m rest).mem_iff.mp hb with hb2
      rcases List.mem_cons.mp hb2 with rfl | hb3
      · exact le_of_lt hc
      · exact hk b hb3
    · rw [if_neg hc]
      refine List.Pairwise.cons ?_ h
      intro b hb
      rcases List.mem_cons.mp hb with rfl | hb2
      · exact le_of_not_lt hc
      · exact le_trans (hk b hb2) (le_of_not_lt hc)

theorem sortByConfDesc_sorted (l : List TemplateMatch) :
    (sortByConfDesc l).Pairwise (fun a b => b.confidence ≤ a.confidence) := by
  induction l with
  | nil => simp [sortByConfDesc]
  | cons m rest ih =>
    unfold sortByConfDesc
    exact insertDesc_sorted m (sortByConfDesc rest) ih

theorem mem_keysWithout (ty : String) (ks : List String) (k : String) :
    k ∈ keysWithout ty ks ↔ k ∈ ks ∧ k ≠ ty := by
  induction ks with
  | nil => simp [keysWithout]
  | cons a rest ih =>
    unfold keysWithout
    by_cases hc : a = ty
    · subst hc
      rw [if_pos rfl, ih]
      constructor
      · rintro ⟨h1, h2⟩
        exact ⟨List.mem_cons_of_mem _ h1, h2⟩
      · rintro ⟨h1, h2⟩
        rcases List.mem_cons.mp h1 with rfl | h3
        · exact absurd rfl h2
        · exact ⟨h3, h2⟩
    · rw [if_neg hc]
      constructor
      · intro h
        rcases List.mem_cons.mp h with rfl | h2
        · exact ⟨List.mem_cons_self _ _, hc⟩
        · obtain ⟨h3, h4⟩ := ih.mp h2
          exact ⟨List.mem_cons_of_mem _ h3, h4⟩
      · rintro ⟨h1, h2⟩
        rcases List.mem_cons.mp h1 with rfl | h3
        · exact List.mem_cons_self _ _
        · exact List.mem_cons_of_mem _ (ih.mpr ⟨h3, h2⟩)

theorem keysWithout_nodup (ty : String) (ks : List String) (h : ks.Nodup) :
    (keysWithout ty ks).Nodup := by
  induction ks with
  | nil => simp [keysWithout]
  | cons a rest ih =>
    obtain ⟨ha, hrest⟩ := List.nodup_cons.mp h
    unfold keysWithout
    by_cases hc : a = ty
    · rw [if_pos hc]
      exact ih hrest
    · rw [if_neg hc]
      refine List.nodup_cons.mpr ⟨?_, ih hrest⟩
      intro hmem
      exact ha ((mem_keysWithout ty rest a).mp hmem).1

theorem groupKeys_nodup (ms : List TemplateMatch) : (groupKeys ms).Nodup := by
  induction ms with
  | nil => simp [groupKeys]
  | cons m rest ih =>
    unfold groupKeys
    refine List.nodup_cons.mpr ⟨?_, keysWithout_nodup _ _ ih⟩
    intro hmem
    exact ((mem_keysWithout _ _ _).mp hmem).2 rfl

theorem mem_groupKeys (ms : List TemplateMatch) (m : TemplateMatch)
    (hm : m ∈ ms) : m.template_type ∈ groupKeys ms := by
  induction ms with
  | nil => cases hm
  | cons a rest ih =>
    unfold groupKeys
    rcases List.mem_cons.mp hm with rfl | hm2
    · exact List.mem_cons_self _ _
    · by_cases hc : m.template_type = a.template_type
      · rw [hc]
        exact List.mem_cons_self _ _
      · exact List.mem_cons_of_mem _
          ((mem_keysWithout _ _ _).mpr ⟨ih hm2, hc⟩)

theorem mem_groupOf (ty : String) (ms : List TemplateMatch) (m : TemplateMatch) :
    m ∈ groupOf ty ms ↔ m ∈ ms ∧ m.template_type = ty := by
  induction ms with
  | nil => simp [groupOf]
  | cons a rest ih =>
    unfold groupOf
    by_cases hc : a.template_type = ty
    · rw [if_pos hc]
      constructor
      · intro h
        rcases List.mem_cons.mp h with rfl | h2
        · exact ⟨List.mem_cons_self _ _, hc⟩
        · obtain ⟨h3, h4⟩ := ih.mp h2
          exact ⟨List.mem_cons_of_mem _ h3, h4⟩
      · rintro ⟨h1, h2⟩
        rcases List.mem_cons.mp h1 with rfl | h3
        · exact List.mem_cons_self _ _
        · exact List.mem_cons_of_mem _ (ih.mpr ⟨h3, h2⟩)
    · rw [if_neg hc]
      constructor
      · intro h
        obtain ⟨h3, h4⟩ := ih.mp h
        exact ⟨List.mem_cons_of_mem _ h3, h4⟩
      · rintro ⟨h1, h2⟩
        rcases List.mem_cons.mp h1 with rfl | h3
        · exact absurd h2 hc
        · exact ih.mpr ⟨h3, h2⟩

theorem mem_nmsGroups (g n : ℚ) (ms : List TemplateMatch) (keys : List String)
    (m : TemplateMatch) :
    m ∈ nmsGroups g n ms keys ↔ ∃ ty ∈ keys, m ∈ nms_boxes g n (groupOf ty ms) := by
  induction keys with
  | nil => simp [nmsGroups]
  | cons ty keys ih =>
    unfold nmsGroups
    rw [List.mem_append, ih]
    constructor
    · rintro (h | ⟨t, ht, hmt⟩)
      · exact ⟨ty, List.mem_cons_self _ _, h⟩
      · exact ⟨t, List.mem_cons_of_mem _ ht, hmt⟩
    · rintro ⟨t, ht, hmt⟩
      rcases List.mem_cons.mp ht with rfl | ht2
      · exact Or.inl hmt
      · exact Or.inr ⟨t, ht2, hmt⟩

theorem nms_boxes_subset (g n : ℚ) (l : List TemplateMatch) (m : TemplateMatch)
    (hm : m ∈ nms_boxes g n l) : m ∈ l ∧ g < m.confidence := by
  unfold nms_boxes at hm
  have h1 : m ∈ sortByConfDesc (scoreFilter g l) :=
    (nmsAux_sublist n _ []).mem hm
  exact (mem_scoreFilter g l m).mp ((mem_sortByConfDesc _ m).mp h1)

theorem nms_boxes_sorted (g n : ℚ) (l : List TemplateMatch) :
    (nms_boxes g n l).Pairwise (fun a b => b.confidence ≤ a.confidence) :=
  List.Pairwise.sublist (nmsAux_sublist n _ []) (sortByConfDesc_sorted _)

theorem nms_boxes_pairwise_iou (g n : ℚ) (l : List TemplateMatch) :
    (nms_boxes g n l).Pairwise (fun a b => iou a b ≤ n) :=
  nmsAux_pairwise n _ []

theorem nmsGroups_pairwise (R : TemplateMatch → TemplateMatch → Prop)
    (g n : ℚ) (ms : List TemplateMatch) (keys : List String)
    (hnodup : keys.Nodup)
    (hgroup : ∀ ty ∈ keys, (nms_boxes g n (groupOf ty ms)).Pairwise R)
    (hcross : ∀ a b : TemplateMatch, a.template_type ≠ b.template_type → R a b) :
    (nmsGroups g n ms keys).Pairwise R := by
  induction keys with
  | nil => simp [nmsGroups]
  | cons ty keys ih =>
    obtain ⟨hty, hkeys⟩ := List.nodup_cons.mp hnodup
    unfold nmsGroups
    rw [List.pairwise_append]
    refine ⟨hgroup ty (List.mem_cons_self _ _),
      ih hkeys (fun t ht => hgroup t (List.mem_cons_of_mem _ ht)), ?_⟩
    intro a ha b hb
    have hat : a.template_type = ty :=
      ((mem_groupOf ty ms a).mp (nms_boxes_subset g n _ a ha).1).2
    obtain ⟨t, ht, hbt⟩ := (mem_nmsGroups g n ms keys b).mp hb
    have hbt2 : b.template_type = t :=
      ((mem_groupOf t ms b).mp (nms_boxes_subset g n _ b hbt).1).2
    apply hcross
    rw [hat, hbt2]
    intro hEq
    exact hty (hEq ▸ ht)

theorem mem_offsetsRowMajor (h w x y : Nat) :
    (x, y) ∈ offsetsRowMajor h w ↔ y < h ∧ x < w := by
  simp only [offsetsRowMajor, List.mem_flatMap, List.mem_map, List.mem_range,
    Prod.mk.injEq]
  constructor
  · rintro ⟨a, ha, b, hb, hbx, hay⟩
    subst hbx
    subst hay
    exact ⟨ha, hb⟩
  · rintro ⟨hy, hx⟩
    exact ⟨y, hy, x, hx, rfl, rfl⟩

theorem mem_collectMatches (t : TemplateEntry) (threshold : ℚ)
    (ps : List (Nat × Nat)) (m : TemplateMatch) :
    m ∈ collectMatches t threshold ps ↔
      ∃ p ∈ ps, threshold ≤ t.corr p.2 p.1 ∧
        m = ⟨p.1, p.2, t.tW, t.tH, t.corr p.2 p.1, t.name, typeOfEntry t⟩ := by
  induction ps with
  | nil => simp [collectMatches]
  | cons p rest ih =>
    unfold collectMatches
    by_cases hc : threshold ≤ t.corr p.2 p.1
    · rw [if_pos hc]
      constructor
      · intro hmem
        rcases List.mem_cons.mp hmem with rfl | h2
        · exact ⟨p, List.mem_cons_self _ _, hc, rfl⟩
        · obtain ⟨q, hq, h3, h4⟩ := ih.mp h2
          exact ⟨q, List.mem_cons_of_mem _ hq, h3, h4⟩
      · rintro ⟨q, hq, h3, h4⟩
        rcases List.mem_cons.mp hq with rfl | h5
        · subst h4
          exact List.mem_cons_self _ _
        · exact List.mem_cons_of_mem _ (ih.mpr ⟨q, h5, h3, h4⟩)
    · rw [if_neg hc, ih]
      constructor
      · rintro ⟨q, hq, h3, h4⟩
        exact ⟨q, List.mem_cons_of_mem _ hq, h3, h4⟩
      · rintro ⟨q, hq, h3, h4⟩
        rcases List.mem_cons.mp hq with rfl | h5
        · exact absurd h3 hc
        · exact ⟨q, h5, h3, h4⟩

theorem mem_collectAll (fH fW : Nat) (g : ℚ) (tfil : Option (List String))
    (cache : List TemplateEntry) (m : TemplateMatch) :
    m ∈ collectAll fH fW g tfil cache ↔
      ∃ t ∈ cache, allowedByFilter tfil (typeOfEntry t) = true ∧
        m ∈ match_single_template fH fW t (thresholdOfEntry g t) := by
  induction cache with
  | nil => simp [collectAll]
  | cons t rest ih =>
    unfold collectAll
    rw [List.mem_append, ih]
    by_cases hc : allowedByFilter tfil (typeOfEntry t) = true
    · rw [if_pos hc]
      constructor
      · rintro (hmem | ⟨u, hu, h2, h3⟩)
        · exact ⟨t, List.mem_cons_self _ _, hc, hmem⟩
        · exact ⟨u, List.mem_cons_of_mem _ hu, h2, h3⟩
      · rintro ⟨u, hu, h2, h3⟩
        rcases List.mem_cons.mp hu with rfl | h4
        · exact Or.inl h3
        · exact Or.inr ⟨u, h4, h2, h3⟩
    · rw [if_neg hc]
      constructor
      · rintro (hmem | ⟨u, hu, h2, h3⟩)
        · exact absurd hmem (List.not_mem_nil m)
        · exact ⟨u, List.mem_cons_of_mem _ hu, h2, h3⟩
      · rintro ⟨u, hu, h2, h3⟩
        rcases List.mem_cons.mp hu with rfl | h4
        · exact absurd h2 hc
        · exact Or.inr ⟨u, h4, h2, h3⟩

theorem match_single_template_sound (fH fW : Nat) (t : TemplateEntry)
    (threshold : ℚ) (m : TemplateMatch)
    (hm : m ∈ match_single_template fH fW t threshold) :
    threshold ≤ m.confidence ∧ m.template_name = t.name ∧
      m.template_type = typeOfEntry t := by
  unfold match_single_template at hm
  by_cases hc : fH < t.tH ∨ fW < t.tW
  · rw [if_pos hc] at hm
    cases hm
  · rw [if_neg hc] at hm
    obtain ⟨p, hp, h2, h3⟩ := (mem_collectMatches t threshold _ m).mp hm
    subst h3
    exact ⟨h2, rfl, rfl⟩

/-! ### C2 -/

/-- C2 counterexample: a "monster" template with per-template threshold 0.5
produces one candidate of confidence 0.6 (collected, no other candidate
overlaps it), yet `match_templates` returns nothing: `cv2.dnn.NMSBoxes` drops
it through the additional global confidence filter
(`self.confidence_threshold = 0.7`) that `_apply_nms` passes as
`score_threshold`. -/
theorem candidate_above_own_threshold_dropped :
    match_single_template 1 1
        ⟨"a", some "monster", some (1/2), 1, 1, fun _ _ => 3/5⟩
        (thresholdOfEntry (7/10)
          ⟨"a", some "monster", some (1/2), 1, 1, fun _ _ => 3/5⟩) =
      [⟨0, 0, 1, 1, 3/5, "a", "monster"⟩] ∧
    match_templates (some (1, 1))
        [⟨"a", some "monster", some (1/2), 1, 1, fun _ _ => 3/5⟩]
        none (7/10) (3/10) = [] := by
  constructor
  · norm_num [match_single_template, collectMatches, offsetsRowMajor, typeOfEntry,
      thresholdOfEntry, List.range_succ]
  · norm_num [match_templates, match_single_template, collectMatches, offsetsRowMajor,
      typeOfEntry, thresholdOfEntry, allowedByFilter, collectAll, apply_nms, nmsGroups,
      nms_boxes, nmsAux, scoreFilter, sortByConfDesc, insertDesc, groupKeys, keysWithout,
      groupOf, List.range_succ]

/-- C2 (amended): (1) every in-bounds offset whose correlation meets its
template's own threshold is collected as a candidate by the single-template
search; (2) every match returned by `match_templates` meets its issuing
template's resolved threshold AND is strictly above the matcher's global
confidence threshold — the additional filter `cv2.dnn.NMSBoxes` applies; and
(3) a collected candidate above the global threshold is missing from the
suppressed output only because of same-category overlap suppression by a
retained candidate. -/
theorem collection_and_removal_characterized (g n : ℚ) :
    (∀ (fH fW : Nat) (t : TemplateEntry) (thr : ℚ) (x y : Nat),
      ¬(fH < t.tH ∨ fW < t.tW) → y < fH - t.tH + 1 → x < fW - t.tW + 1 →
      thr ≤ t.corr y x →
      (⟨x, y, t.tW, t.tH, t.corr y x, t.name, typeOfEntry t⟩ : TemplateMatch) ∈
        match_single_template fH fW t thr) ∧
    (∀ (frame : Option (Nat × Nat)) (cache : List TemplateEntry)
      (tfil : Option (List String)) (m : TemplateMatch),
      m ∈ match_templates frame cache tfil g n →
      g < m.confidence ∧
      ∃ t ∈ cache, allowedByFilter tfil (typeOfEntry t) = true ∧
        m.template_name = t.name ∧ m.template_type = typeOfEntry t ∧
        thresholdOfEntry g t ≤ m.confidence) ∧
    (∀ (ms : List TemplateMatch) (m : TemplateMatch), m ∈ ms →
      g < m.confidence → m ∉ apply_nms g n ms →
      ∃ k ∈ apply_nms g n ms, k.template_type = m.template_type ∧ n < iou k m) := by
  refine ⟨?_, ?_, ?_⟩
  · intro fH fW t thr x y hfit hy hx hcorr
    unfold match_single_template
    rw [if_neg hfit]
    exact (mem_collectMatches t thr _ _).mpr
      ⟨(x, y), (mem_offsetsRowMajor _ _ x y).mpr ⟨hy, hx⟩, hcorr, rfl⟩
  · intro frame cache tfil m hm
    cases frame with
    | none => cases hm
    | some fr =>
      unfold match_templates apply_nms at hm
      obtain ⟨ty, hty, hmty⟩ := (mem_nmsGroups g n _ _ m).mp hm
      obtain ⟨hmg, hgconf⟩ := nms_boxes_subset g n _ m hmty
      have hms : m ∈ sortByConfDesc (collectAll fr.1 fr.2 g tfil cache) :=
        ((mem_groupOf ty _ m).mp hmg).1
      have hmc : m ∈ collectAll fr.1 fr.2 g tfil cache :=
        (mem_sortByConfDesc _ m).mp hms
      obtain ⟨t, ht, hallow, hmst⟩ := (mem_collectAll _ _ g tfil cache m).mp hmc
      obtain ⟨hthr, hname, htype⟩ :=
        match_single_template_sound fr.1 fr.2 t _ m hmst
      exact ⟨hgconf, t, ht, hallow, hname, htype, hthr⟩
  · intro ms m hm hconf hout
    have hmg : m ∈ groupOf m.template_type ms := (mem_groupOf _ ms m).mpr ⟨hm, rfl⟩
    have hmf : m ∈ scoreFilter g (groupOf m.template_type ms) :=
      (mem_scoreFilter g _ m).mpr ⟨hmg, hconf⟩
    have hmss : m ∈ sortByConfDesc (scoreFilter g (groupOf m.template_type ms)) :=
      (mem_sortByConfDesc _ m).mpr hmf
    have hkey : m.template_type ∈ groupKeys ms := mem_groupKeys ms m hm
    rcases nmsAux_mem_or_suppressed n _ [] m hmss with hin | ⟨k, hk, hik⟩
    · exfalso
      apply hout
      unfold apply_nms
      exact (mem_nmsGroups g n ms _ m).mpr ⟨m.template_type, hkey, hin⟩
    · rcases hk with hk | hk
      · exact absurd hk (List.not_mem_nil k)
      · have hkapp : k ∈ apply_nms g n ms := by
          unfold apply_nms
          exact (mem_nmsGroups g n ms _ k).mpr ⟨m.template_type, hkey, hk⟩
        have hktt : k.template_type = m.template_type :=
          ((mem_groupOf _ ms k).mp (nms_boxes_subset g n _ k hk).1).2
        exact ⟨k, hkapp, hktt, hik⟩

/-! ### Two-candidate suppression lemmas and concrete candidates -/

theorem nms_boxes_singleton (g n : ℚ) (a : TemplateMatch)
    (hga : g < a.confidence) : nms_boxes g n [a] = [a] := by
  have h1 : ∀ k ∈ ([] : List TemplateMatch), iou k a ≤ n :=
    fun k hk => absurd hk (List.not_mem_nil k)
  unfold nms_boxes
  simp only [scoreFilter]
  rw [if_pos hga]
  simp only [sortByConfDesc, insertDesc, nmsAux, List.nil_append]
  rw [if_pos h1]

theorem nms_pair (g n : ℚ) (a b : TemplateMatch)
    (htt : b.template_type = a.template_type)
    (hgb : g < b.confidence) (hba : b.confidence < a.confidence)
    (hio : n < iou a b) :
    apply_nms g n [a, b] = [a] := by
  have hga : g < a.confidence := lt_trans hgb hba
  have h1 : ∀ k ∈ ([] : List TemplateMatch), iou k a ≤ n :=
    fun k hk => absurd hk (List.not_mem_nil k)
  have h2 : ¬∀ k ∈ [a], iou k b ≤ n := by
    intro hall
    exact absurd (hall a (List.mem_cons_self _ _)) (not_le.mpr hio)
  have hkeys : groupKeys [a, b] = [a.template_type] := by
    simp only [groupKeys, keysWithout]
    rw [if_pos htt]
  have hgrp : groupOf a.template_type [a, b] = [a, b] := by
    simp only [groupOf, if_true]
    rw [if_pos htt]
  have hsf : scoreFilter g [a, b] = [a, b] := by
    simp only [scoreFilter]
    rw [if_pos hga, if_pos hgb]
  have hsort : sortByConfDesc [a, b] = [a, b] := by
    simp only [sortByConfDesc, insertDesc]
    rw [if_neg (lt_asymm hba)]
  have hnms : nmsAux n [] [a, b] = [a] := by
    simp only [nmsAux, List.nil_append]
    rw [if_pos h1, if_neg h2]
  unfold apply_nms
  rw [hkeys]
  simp only [nmsGroups]
  rw [hgrp]
  unfold nms_boxes
  rw [hsf, hsort, hnms, List.append_nil]

theorem nms_pair_rev (g n : ℚ) (a b : TemplateMatch)
    (htt : b.template_type = a.template_type)
    (hgb : g < b.confidence) (hba : b.confidence < a.confidence)
    (hio : n < iou a b) :
    apply_nms g n [b, a] = [a] := by
  have hga : g < a.confidence := lt_trans hgb hba
  have h1 : ∀ k ∈ ([] : List TemplateMatch), iou k a ≤ n :=
    fun k hk => absurd hk (List.not_mem_nil k)
  have h2 : ¬∀ k ∈ [a], iou k b ≤ n := by
    intro hall
    exact absurd (hall a (List.mem_cons_self _ _)) (not_le.mpr hio)
  have hkeys : groupKeys [b, a] = [b.template_type] := by
    simp only [groupKeys, keysWithout]
    rw [if_pos htt.symm]
  have hgrp : groupOf b.template_type [b, a] = [b, a] := by
    simp only [groupOf, if_true]
    rw [if_pos htt.symm]
  have hsf : scoreFilter g [b, a] = [b, a] := by
    simp only [scoreFilter]
    rw [if_pos hgb, if_pos hga]
  have hsort : sortByConfDesc [b, a] = [a, b] := by
    simp only [sortByConfDesc, insertDesc]
    rw [if_pos hba]
  have hnms : nmsAux n [] [a, b] = [a] := by
    simp only [nmsAux, List.nil_append]
    rw [if_pos h1, if_neg h2]
  unfold apply_nms
  rw [hkeys]
  simp only [nmsGroups]
  rw [hgrp]
  unfold nms_boxes
  rw [hsf, hsort, hnms, List.append_nil]

theorem nms_pair_diff (g n : ℚ) (a b : TemplateMatch)
    (htt : ¬b.template_type = a.template_type)
    (hga : g < a.confidence) (hgb : g < b.confidence) :
    apply_nms g n [a, b] = [a, b] := by
  have hkeys : groupKeys [a, b] = [a.template_type, b.template_type] := by
    simp only [groupKeys, keysWithout]
    rw [if_neg htt]
  have hgrpa : groupOf a.template_type [a, b] = [a] := by
    simp only [groupOf, if_true]
    rw [if_neg htt]
  have hgrpb : groupOf b.template_type [a, b] = [b] := by
    simp only [groupOf, if_true]
    rw [if_neg (fun hEq => htt hEq.symm)]
  unfold apply_nms
  rw [hkeys]
  simp only [nmsGroups]
  rw [hgrpa, hgrpb, nms_boxes_singleton g n a hga, nms_boxes_singleton g n b hgb,
    List.append_nil, List.singleton_append]

/-- Concrete candidates for the concrete instantiations: `mA` and `mB` are
same-category 2×2 boxes at x = 0 and x = 1 (IoU 1/3); `mC` is an "item"
candidate. -/
def mA : TemplateMatch := ⟨0, 0, 2, 2, 9/10, "a", "monster"⟩

def mB : TemplateMatch := ⟨1, 0, 2, 2, 4/5, "b", "monster"⟩

def mC : TemplateMatch := ⟨0, 0, 2, 2, 4/5, "c", "item"⟩

theorem iou_mA_mB : iou mA mB = 1/3 := by
  norm_num [iou, interArea, unionArea, segOverlap, mA, mB]

theorem apply_nms_mA_mB : apply_nms (7/10) (3/10) [mA, mB] = [mA] := by
  refine nms_pair (7/10) (3/10) mA mB rfl ?_ ?_ ?_
  · norm_num [mB]
  · norm_num [mA, mB]
  · rw [iou_mA_mB]
    norm_num

/-! ### C3 -/

theorem scoreFilter_all_low (g : ℚ) (l : List TemplateMatch)
    (h : ∀ m ∈ l, ¬g < m.confidence) : scoreFilter g l = [] := by
  induction l with
  | nil => rfl
  | cons a rest ih =>
    unfold scoreFilter
    rw [if_neg (h a (List.mem_cons_self _ _))]
    exact ih (fun m hm => h m (List.mem_cons_of_mem _ hm))

theorem apply_nms_all_low (g n : ℚ) (ms : List TemplateMatch)
    (h : ∀ m ∈ ms, ¬g < m.confidence) : apply_nms g n ms = [] := by
  unfold apply_nms
  have hkeys : ∀ keys : List String, nmsGroups g n ms keys = [] := by
    intro keys
    induction keys with
    | nil => rfl
    | cons ty rest ih =>
      unfold nmsGroups
      rw [ih, List.append_nil]
      unfold nms_boxes
      rw [scoreFilter_all_low g _ (fun m hm => h m ((mem_groupOf ty ms m).mp hm).1)]
      rfl
  exact hkeys _

/-- The template entry of the C3 counterexample: a 2×2 "monster" template with
per-template threshold 0.5, matched on a 2×3 frame, where the correlation is
0.6 at offset x = 0 and 0.5 at x = 1. -/
def eLow : TemplateEntry :=
  ⟨"a", some "monster", some (1/2), 2, 2, fun _ x => if x = 0 then 3/5 else 1/2⟩

/-- The two candidates `eLow` collects: overlapping same-category boxes with
confidences 0.6 and 0.5. -/
def cLowA : TemplateMatch := ⟨0, 0, 2, 2, 3/5, "a", "monster"⟩

def cLowB : TemplateMatch := ⟨1, 0, 2, 2, 1/2, "a", "monster"⟩

set_option maxHeartbeats 1000000 in
/-- C3 counterexample: two same-category candidates with IoU 1/3 > 0.3 and
confidences 0.6 > 0.5 are both collected, but `match_templates` returns
neither — not "exactly the higher-confidence one": the global score filter of
`cv2.dnn.NMSBoxes` (score_threshold 0.7) drops both before suppression. -/
theorem same_category_pair_both_dropped :
    match_single_template 2 3 eLow (thresholdOfEntry (7/10) eLow) = [cLowA, cLowB] ∧
    cLowA.template_type = cLowB.template_type ∧
    (3 : ℚ)/10 < iou cLowA cLowB ∧
    cLowB.confidence < cLowA.confidence ∧
    match_templates (some (2, 3)) [eLow] none (7/10) (3/10) = [] := by
  refine ⟨?_, rfl, ?_, ?_, ?_⟩
  · norm_num [match_single_template, collectMatches, offsetsRowMajor, typeOfEntry,
      thresholdOfEntry, eLow, cLowA, cLowB, List.range_succ]
  · norm_num [iou, interArea, unionArea, segOverlap, cLowA, cLowB]
  · norm_num [cLowA, cLowB]
  · unfold match_templates
    apply apply_nms_all_low
    intro m hm
    rw [mem_sortByConfDesc] at hm
    have hcol : collectAll 2 3 (7/10) none [eLow] = [cLowA, cLowB] := by
      norm_num [collectAll, allowedByFilter, typeOfEntry, thresholdOfEntry, eLow,
        match_single_template, collectMatches, offsetsRowMajor, List.range_succ,
        cLowA, cLowB]
    rw [hcol] at hm
    rcases List.mem_cons.mp hm with rfl | hm2
    · norm_num [cLowA]
    · rcases List.mem_cons.mp hm2 with rfl | hm3
      · norm_num [cLowB]
      · exact absurd hm3 (List.not_mem_nil m)

/-- C3 (amended): among candidates strictly above the matcher's global
confidence threshold, suppression behaves as the claim states: of two
overlapping same-category candidates exactly the higher-confidence one
survives (whatever their input order), two candidates of different categories
both survive, and no two same-category matches in the output of
`match_templates` overlap with IoU above the suppression threshold. -/
theorem nms_two_candidates_and_invariant (g n : ℚ) :
    (∀ a b : TemplateMatch, b.template_type = a.template_type →
      g < b.confidence → b.confidence < a.confidence → n < iou a b →
      apply_nms g n [a, b] = [a] ∧ apply_nms g n [b, a] = [a]) ∧
    (∀ a b : TemplateMatch, ¬b.template_type = a.template_type →
      g < a.confidence → g < b.confidence →
      apply_nms g n [a, b] = [a, b]) ∧
    (∀ (frame : Option (Nat × Nat)) (cache : List TemplateEntry)
      (tfil : Option (List String)),
      (match_templates frame cache tfil g n).Pairwise
        (fun x y => x.template_type = y.template_type → iou x y ≤ n)) := by
  refine ⟨?_, ?_, ?_⟩
  · intro a b h1 h2 h3 h4
    exact ⟨nms_pair g n a b h1 h2 h3 h4, nms_pair_rev g n a b h1 h2 h3 h4⟩
  · intro a b h1 h2 h3
    exact nms_pair_diff g n a b h1 h2 h3
  · intro frame cache tfil
    cases frame with
    | none => simp [match_templates]
    | some fr =>
      unfold match_templates apply_nms
      refine nmsGroups_pairwise _ g n _ _ (groupKeys_nodup _) ?_ ?_
      · intro ty hty
        refine List.Pairwise.imp ?_ (nms_boxes_pairwise_iou g n _)
        intro x y h hEq
        exact h
      · intro x y hxy hEq
        exact absurd hEq hxy

theorem nms_two_candidates_and_invariant_witness :
    (apply_nms (7/10) (3/10) [mA, mB] = [mA] ∧
      apply_nms (7/10) (3/10) [mB, mA] = [mA]) ∧
    apply_nms (7/10) (3/10) [mA, mC] = [mA, mC] ∧
    (match_templates (some (1, 1)) [] none (7/10) (3/10)).Pairwise
      (fun x y => x.template_type = y.template_type → iou x y ≤ 3/10) :=
  ⟨(nms_two_candidates_and_invariant (7/10) (3/10)).1 mA mB rfl
      (by norm_num [mB]) (by norm_num [mA, mB]) (by rw [iou_mA_mB]; norm_num),
    (nms_two_candidates_and_invariant (7/10) (3/10)).2.1 mA mC (by decide)
      (by norm_num [mA]) (by norm_num [mC]),
    (nms_two_candidates_and_invariant (7/10) (3/10)).2.2 (some (1, 1)) [] none⟩

/-! ### C7 -/

set_option maxHeartbeats 4000000 in
/-- C7 counterexample: three templates in two categories produce the output
`[monster 0.9, monster 0.75, item 0.8]` — the per-category groups are emitted
one after the other, so the sequence is not globally sorted by confidence
(0.75 precedes 0.8). -/
theorem match_output_not_globally_sorted :
    match_templates (some (1, 3))
      [⟨"a", some "monster", some (9/10), 1, 1, fun _ x => if x = 0 then 9/10 else 0⟩,
       ⟨"b", some "monster", some (3/4), 1, 1, fun _ x => if x = 2 then 3/4 else 0⟩,
       ⟨"c", some "item", some (4/5), 1, 1, fun _ x => if x = 1 then 4/5 else 0⟩]
      none (7/10) (3/10) =
      [⟨0, 0, 1, 1, 9/10, "a", "monster"⟩, ⟨2, 0, 1, 1, 3/4, "b", "monster"⟩,
       ⟨1, 0, 1, 1, 4/5, "c", "item"⟩] ∧
    ((3 : ℚ)/4 < 4/5) := by
  constructor
  · norm_num [match_templates, match_single_template, collectMatches, offsetsRowMajor,
      typeOfEntry, thresholdOfEntry, allowedByFilter, collectAll, apply_nms, nmsGroups,
      nms_boxes, nmsAux, scoreFilter, sortByConfDesc, insertDesc, groupKeys, keysWithout,
      groupOf, iou, interArea, unionArea, segOverlap, List.range_succ]
  · norm_num

/-- C7 (amended): the output of `match_templates` is confidence-sorted within
each category; globally it is the concatenation of the per-category runs in
first-appearance order, not a globally sorted sequence. -/
theorem match_templates_sorted_within_category
    (frame : Option (Nat × Nat)) (cache : List TemplateEntry)
    (tfil : Option (List String)) (g n : ℚ) :
    (match_templates frame cache tfil g n).Pairwise
      (fun a b => a.template_type = b.template_type → b.confidence ≤ a.confidence) := by
  cases frame with
  | none => simp [match_templates]
  | some fr =>
    unfold match_templates apply_nms
    refine nmsGroups_pairwise _ g n _ _ (groupKeys_nodup _) ?_ ?_
    · intro ty hty
      refine List.Pairwise.imp ?_ (nms_boxes_sorted g n _)
      intro x y h hEq
      exact h
    · intro x y hxy hEq
      exact absurd hEq hxy

/-- A cache entry whose single candidate passes both its own threshold and
the global one, and the match it yields. -/
def eHigh : TemplateEntry := ⟨"d", some "monster", some (1/2), 1, 1, fun _ _ => 9/10⟩

def mHigh : TemplateMatch := ⟨0, 0, 1, 1, 9/10, "d", "monster"⟩

theorem match_templates_eHigh :
    match_templates (some (1, 1)) [eHigh] none (7/10) (3/10) = [mHigh] := by
  norm_num [match_templates, match_single_template, collectMatches, offsetsRowMajor,
    typeOfEntry, thresholdOfEntry, allowedByFilter, collectAll, apply_nms, nmsGroups,
    nms_boxes, nmsAux, scoreFilter, sortByConfDesc, insertDesc, groupKeys, keysWithout,
    groupOf, eHigh, mHigh, List.range_succ]

theorem collection_and_removal_characterized_witness :
    ((⟨0, 0, 1, 1, 3/5, "a", "monster"⟩ : TemplateMatch) ∈
      match_single_template 1 1
        ⟨"a", some "monster", some (1/2), 1, 1, fun _ _ => 3/5⟩ (1/2)) ∧
    ((7 : ℚ)/10 < mHigh.confidence ∧
      ∃ t ∈ [eHigh], allowedByFilter none (typeOfEntry t) = true ∧
        mHigh.template_name = t.name ∧ mHigh.template_type = typeOfEntry t ∧
        thresholdOfEntry (7/10) t ≤ mHigh.confidence) ∧
    (∃ k ∈ apply_nms (7/10) (3/10) [mA, mB],
      k.template_type = mB.template_type ∧ (3 : ℚ)/10 < iou k mB) :=
  ⟨(collection_and_removal_characterized (7/10) (3/10)).1 1 1
      ⟨"a", some "monster", some (1/2), 1, 1, fun _ _ => 3/5⟩ (1/2) 0 0
      (by decide) (by decide) (by decide) (by norm_num),
    (collection_and_removal_characterized (7/10) (3/10)).2.1 (some (1, 1)) [eHigh]
      none mHigh (by rw [match_templates_eHigh]; exact List.mem_cons_self _ _),
    (collection_and_removal_characterized (7/10) (3/10)).2.2 [mA, mB] mB
      (List.mem_cons_of_mem _ (List.mem_cons_self _ _)) (by norm_num [mB])
      (by
        rw [apply_nms_mA_mB]
        intro hmem
        have h := List.mem_singleton.mp hmem
        simp [mA, mB] at h)⟩
